import Mathlib

/-!
Verification of the container-trait contract of `src/libcore/container.rs`.

The source file declares only the capability traits `Container`, `Mutable`,
`Map<K,V>` and `Set<T>` (signatures and documentation); no concrete
collection implementation ships with it.  Following the specification, we
build a reference conformant implementation: a `Map<K,V>` backed by an
association list and a `Set<T>` backed by a list of elements, in which each
trait operation is modelled from the spec's stated semantics.  The theorems
below settle the spec's claims against this reference implementation.
-/

set_option autoImplicit false
set_option linter.unusedSectionVars false

namespace ContainerSpec

variable {K V T : Type} [DecidableEq K] [DecidableEq T]

/-- Modelled from the spec: no concrete `Map` implementation exists in the
source, so the state of a conformant map is modelled as an association list
of key/value pairs (first entry with a given key is the binding). -/
abbrev MapState (K V : Type) : Type := List (K × V)

namespace MapM

/-- Modelled from the spec: `Container::len`, "returns current element
count; must not mutate". -/
def len (m : MapState K V) : Nat := List.length m

/-- Modelled from the spec: `Container::is_empty`, "return true if the
container contains no elements". -/
def is_empty (m : MapState K V) : Bool := List.isEmpty m

/-- Modelled from the spec: `Mutable::clear`, "removes all elements". -/
def clear (_m : MapState K V) : MapState K V := []

/-- Modelled from the spec: `Map::find`, "return a reference to the value
corresponding to the key; absent key yields empty result, never an
error". -/
def find (m : MapState K V) (key : K) : Option V :=
  match m with
  | [] => none
  | (k0, v0) :: rest => if k0 = key then some v0 else find rest key

/-- Modelled from the spec: `Map::contains_key`, "return true if the map
contains a value for the specified key". -/
def contains_key (m : MapState K V) (key : K) : Bool :=
  m.any (fun p => decide (p.1 = key))

/-- Modelled from the spec: `Map::insert`, "an existing value for a key is
replaced by the new value; return true if the key did not already exist in
the map".  Returns the flag together with the updated map state. -/
def insert (m : MapState K V) (key : K) (value : V) : Bool × MapState K V :=
  match m with
  | [] => (true, [(key, value)])
  | (k0, v0) :: rest =>
    if k0 = key then (false, (key, value) :: rest)
    else
      let r := insert rest key value
      (r.1, (k0, v0) :: r.2)

/-- Modelled from the spec: `Map::swap`, "insert a key-value pair into the
map; if the key already had a value present in the map, that value is
returned, otherwise None is returned". -/
def swap (m : MapState K V) (key : K) (value : V) : Option V × MapState K V :=
  match m with
  | [] => (none, [(key, value)])
  | (k0, v0) :: rest =>
    if k0 = key then (some v0, (key, value) :: rest)
    else
      let r := swap rest key value
      (r.1, (k0, v0) :: r.2)

/-- Modelled from the spec: `Map::remove`, "remove a key-value pair from the
map; return true if the key was present in the map, otherwise false". -/
def remove (m : MapState K V) (key : K) : Bool × MapState K V :=
  match m with
  | [] => (false, [])
  | (k0, v0) :: rest =>
    if k0 = key then (true, rest)
    else
      let r := remove rest key
      (r.1, (k0, v0) :: r.2)

/-- Modelled from the spec: `Map::pop`, "removes a key from the map,
returning the value at the key if the key was previously in the map". -/
def pop (m : MapState K V) (key : K) : Option V × MapState K V :=
  match m with
  | [] => (none, [])
  | (k0, v0) :: rest =>
    if k0 = key then (some v0, rest)
    else
      let r := pop rest key
      (r.1, (k0, v0) :: r.2)

end MapM

/-- Modelled from the spec: the short-circuiting visitor traversal shared by
the whole non-stage0 visitation family ("visits every element; returning
false must stop iteration immediately without visiting remaining elements;
the traversal reports whether it ran to completion").  Returns the list of
visited elements together with the completion boolean. -/
def traverse {A : Type} (l : List A) (f : A → Bool) : List A × Bool :=
  match l with
  | [] => ([], true)
  | a :: rest =>
    if f a then
      let r := traverse rest f
      (a :: r.1, r.2)
    else ([a], false)

/-- Modelled from the spec: the stage0 variant of the visitor traversal,
identical except that it returns unit instead of the completion boolean;
the visited elements are recorded so the two variants can be compared. -/
def traverse0 {A : Type} (l : List A) (f : A → Bool) : List A × Unit :=
  match l with
  | [] => ([], ())
  | a :: rest =>
    if f a then
      let r := traverse0 rest f
      (a :: r.1, ())
    else ([a], ())

namespace MapM

/-- Modelled from the spec: `Map::each` (non-stage0), "visits all keys and
values", returning the completion boolean. -/
def each (m : MapState K V) (f : K → V → Bool) : Bool :=
  (traverse m (fun p => f p.1 p.2)).2

/-- Modelled from the spec: the key/value pairs actually visited by
`Map::each` (non-stage0). -/
def eachVisited (m : MapState K V) (f : K → V → Bool) : List (K × V) :=
  (traverse m (fun p => f p.1 p.2)).1

/-- Modelled from the spec: the key/value pairs actually visited by the
stage0 unit-returning `Map::each`. -/
def each0Visited (m : MapState K V) (f : K → V → Bool) : List (K × V) :=
  (traverse0 m (fun p => f p.1 p.2)).1

/-- Modelled from the spec: `Map::each_key` (non-stage0), "visit all
keys". -/
def each_key (m : MapState K V) (f : K → Bool) : Bool :=
  (traverse (m.map Prod.fst) f).2

/-- Modelled from the spec: the keys actually visited by `Map::each_key`
(non-stage0). -/
def each_keyVisited (m : MapState K V) (f : K → Bool) : List K :=
  (traverse (m.map Prod.fst) f).1

/-- Modelled from the spec: the keys actually visited by the stage0
unit-returning `Map::each_key`. -/
def each_key0Visited (m : MapState K V) (f : K → Bool) : List K :=
  (traverse0 (m.map Prod.fst) f).1

/-- Modelled from the spec: `Map::each_value` (non-stage0), "visit all
values". -/
def each_value (m : MapState K V) (f : V → Bool) : Bool :=
  (traverse (m.map Prod.snd) f).2

/-- Modelled from the spec: the values actually visited by
`Map::each_value` (non-stage0). -/
def each_valueVisited (m : MapState K V) (f : V → Bool) : List V :=
  (traverse (m.map Prod.snd) f).1

/-- Modelled from the spec: the values actually visited by the stage0
unit-returning `Map::each_value`. -/
def each_value0Visited (m : MapState K V) (f : V → Bool) : List V :=
  (traverse0 (m.map Prod.snd) f).1

/-- Modelled from the spec: `Map::mutate_values` (non-stage0), "iterate
over the map and mutate the contained values"; the visitor returns the
continue flag together with the in-place-mutated value, and the operation
returns the updated map with the completion boolean. -/
def mutate_values (m : MapState K V) (f : K → V → Bool × V) :
    MapState K V × Bool :=
  match m with
  | [] => ([], true)
  | (k, v) :: rest =>
    let r := f k v
    if r.1 then
      let s := mutate_values rest f
      ((k, r.2) :: s.1, s.2)
    else ((k, r.2) :: rest, false)

/-- Modelled from the spec: the stage0 unit-returning
`Map::mutate_values`: same in-place mutation, no completion boolean. -/
def mutate_values0 (m : MapState K V) (f : K → V → Bool × V) :
    MapState K V :=
  match m with
  | [] => []
  | (k, v) :: rest =>
    let r := f k v
    if r.1 then (k, r.2) :: mutate_values0 rest f
    else (k, r.2) :: rest

end MapM

/-- Modelled from the spec: no concrete `Set` implementation exists in the
source, so the state of a conformant set is modelled as a list of its
elements (conformant states keep the list duplicate-free). -/
abbrev SetState (T : Type) : Type := List T

namespace SetM

/-- Modelled from the spec: `Container::len` for sets. -/
def len (s : SetState T) : Nat := List.length s

/-- Modelled from the spec: `Container::is_empty` for sets. -/
def is_empty (s : SetState T) : Bool := List.isEmpty s

/-- Modelled from the spec: `Mutable::clear` for sets. -/
def clear (_s : SetState T) : SetState T := []

/-- Modelled from the spec: `Set::contains`, "return true if the set
contains a value". -/
def contains (s : SetState T) (value : T) : Bool :=
  s.any (fun x => decide (x = value))

/-- Modelled from the spec: `Set::insert`, "add a value to the set; return
true if the value was not already present in the set". -/
def insert (s : SetState T) (value : T) : Bool × SetState T :=
  if contains s value then (false, s) else (true, s ++ [value])

/-- Modelled from the spec: `Set::remove`, "remove a value from the set;
return true if the value was present in the set". -/
def remove (s : SetState T) (value : T) : Bool × SetState T :=
  (contains s value, s.filter (fun x => !(decide (x = value))))

/-- Modelled from the spec: `Set::is_subset`, "true iff every element of
self is in other". -/
def is_subset (a b : SetState T) : Bool :=
  a.all (fun x => contains b x)

/-- Modelled from the spec: `Set::is_superset`, "return true if the set is
a superset of another". -/
def is_superset (a b : SetState T) : Bool := is_subset b a

/-- Modelled from the spec: `Set::is_disjoint`, "return true if the set has
no elements in common with other". -/
def is_disjoint (a b : SetState T) : Bool :=
  a.all (fun x => !(contains b x))

/-- Modelled from the spec: the sequence of values representing the
difference, "the elements in self and not in other". -/
def differenceElems (a b : SetState T) : List T :=
  a.filter (fun x => !(contains b x))

/-- Modelled from the spec: the sequence of values representing the
symmetric difference. -/
def symmetric_differenceElems (a b : SetState T) : List T :=
  differenceElems a b ++ differenceElems b a

/-- Modelled from the spec: the sequence of values representing the
intersection. -/
def intersectionElems (a b : SetState T) : List T :=
  a.filter (fun x => contains b x)

/-- Modelled from the spec: the sequence of values representing the
union. -/
def unionElems (a b : SetState T) : List T :=
  a ++ differenceElems b a

/-- Modelled from the spec: `Set::difference` (non-stage0), visiting the
difference with early termination and completion reporting. -/
def difference (a b : SetState T) (f : T → Bool) : Bool :=
  (traverse (differenceElems a b) f).2

/-- Modelled from the spec: the values actually visited by
`Set::difference` (non-stage0). -/
def differenceVisited (a b : SetState T) (f : T → Bool) : List T :=
  (traverse (differenceElems a b) f).1

/-- Modelled from the spec: the values actually visited by the stage0
unit-returning `Set::difference`. -/
def difference0Visited (a b : SetState T) (f : T → Bool) : List T :=
  (traverse0 (differenceElems a b) f).1

/-- Modelled from the spec: `Set::symmetric_difference` (non-stage0). -/
def symmetric_difference (a b : SetState T) (f : T → Bool) : Bool :=
  (traverse (symmetric_differenceElems a b) f).2

/-- Modelled from the spec: the values actually visited by
`Set::symmetric_difference` (non-stage0). -/
def symmetric_differenceVisited (a b : SetState T) (f : T → Bool) : List T :=
  (traverse (symmetric_differenceElems a b) f).1

/-- Modelled from the spec: the values actually visited by the stage0
unit-returning `Set::symmetric_difference`. -/
def symmetric_difference0Visited (a b : SetState T) (f : T → Bool) :
    List T :=
  (traverse0 (symmetric_differenceElems a b) f).1

/-- Modelled from the spec: `Set::intersection` (non-stage0). -/
def intersection (a b : SetState T) (f : T → Bool) : Bool :=
  (traverse (intersectionElems a b) f).2

/-- Modelled from the spec: the values actually visited by
`Set::intersection` (non-stage0). -/
def intersectionVisited (a b : SetState T) (f : T → Bool) : List T :=
  (traverse (intersectionElems a b) f).1

/-- Modelled from the spec: the values actually visited by the stage0
unit-returning `Set::intersection`. -/
def intersection0Visited (a b : SetState T) (f : T → Bool) : List T :=
  (traverse0 (intersectionElems a b) f).1

/-- Modelled from the spec: `Set::union` (non-stage0). -/
def union (a b : SetState T) (f : T → Bool) : Bool :=
  (traverse (unionElems a b) f).2

/-- Modelled from the spec: the values actually visited by `Set::union`
(non-stage0). -/
def unionVisited (a b : SetState T) (f : T → Bool) : List T :=
  (traverse (unionElems a b) f).1

/-- Modelled from the spec: the values actually visited by the stage0
unit-returning `Set::union`. -/
def union0Visited (a b : SetState T) (f : T → Bool) : List T :=
  (traverse0 (unionElems a b) f).1

end SetM

/-! ### Helper lemmas about the reference implementation -/

namespace MapM

theorem contains_key_iff_mem (m : MapState K V) (k : K) :
    contains_key m k = true ↔ ∃ p ∈ m, p.1 = k := by
  simp [contains_key, List.any_eq_true]

theorem find_isSome (m : MapState K V) (k : K) :
    (find m k).isSome = contains_key m k := by
  induction m with
  | nil => simp [find, contains_key]
  | cons p rest ih =>
    obtain ⟨k0, v0⟩ := p
    by_cases h : k0 = k
    · simp [find, contains_key, h]
    · simp [find, contains_key, h] at ih ⊢
      exact ih

theorem insert_fst (m : MapState K V) (k : K) (v : V) :
    (insert m k v).1 = !(contains_key m k) := by
  induction m with
  | nil => simp [insert, contains_key]
  | cons p rest ih =>
    obtain ⟨k0, v0⟩ := p
    by_cases h : k0 = k
    · simp [insert, contains_key, h]
    · simp [insert, contains_key, h] at ih ⊢
      exact ih

theorem find_insert (m : MapState K V) (k : K) (v : V) :
    find (insert m k v).2 k = some v := by
  induction m with
  | nil => simp [insert, find]
  | cons p rest ih =>
    obtain ⟨k0, v0⟩ := p
    by_cases h : k0 = k
    · simp [insert, find, h]
    · simp [insert, find, h]
      exact ih

theorem insert_len_bounds (m : MapState K V) (k : K) (v : V) :
    List.length (insert m k v).2 ≤ List.length m + 1 ∧
      List.length m ≤ List.length (insert m k v).2 := by
  induction m with
  | nil => simp [insert]
  | cons p rest ih =>
    obtain ⟨k0, v0⟩ := p
    by_cases h : k0 = k
    · simp [insert, h]
    · simp only [insert, if_neg h, List.length_cons]
      omega

theorem swap_eq (m : MapState K V) (k : K) (v : V) :
    swap m k v = (find m k, (insert m k v).2) := by
  induction m with
  | nil => simp [swap, insert, find]
  | cons p rest ih =>
    obtain ⟨k0, v0⟩ := p
    by_cases h : k0 = k
    · simp [swap, insert, find, h]
    · simp [swap, insert, find, h, ih]

theorem remove_fst (m : MapState K V) (k : K) :
    (remove m k).1 = contains_key m k := by
  induction m with
  | nil => simp [remove, contains_key]
  | cons p rest ih =>
    obtain ⟨k0, v0⟩ := p
    by_cases h : k0 = k
    · simp [remove, contains_key, h]
    · simp [remove, contains_key, h] at ih ⊢
      exact ih

theorem remove_snd_of_absent (m : MapState K V) (k : K)
    (h : contains_key m k = false) : (remove m k).2 = m := by
  induction m with
  | nil => simp [remove]
  | cons p rest ih =>
    obtain ⟨k0, v0⟩ := p
    simp [contains_key] at h
    simp [remove, h.1, ih (by simpa [contains_key] using h.2)]

theorem pop_eq (m : MapState K V) (k : K) :
    pop m k = (find m k, (remove m k).2) := by
  induction m with
  | nil => simp [pop, find, remove]
  | cons p rest ih =>
    obtain ⟨k0, v0⟩ := p
    by_cases h : k0 = k
    · simp [pop, find, remove, h]
    · simp [pop, find, remove, h, ih]

theorem contains_key_remove_of_nodup (m : MapState K V) (k : K)
    (h : (m.map Prod.fst).Nodup) :
    contains_key (remove m k).2 k = false := by
  induction m with
  | nil => simp [remove, contains_key]
  | cons p rest ih =>
    obtain ⟨k0, v0⟩ := p
    rw [List.map_cons, List.nodup_cons] at h
    obtain ⟨hk0, hrest⟩ := h
    by_cases hk : k0 = k
    · subst hk
      simp only [remove, if_pos rfl]
      have hnc : ¬(contains_key rest k0 = true) := by
        rw [contains_key_iff_mem]
        rintro ⟨q, hq, hq1⟩
        exact hk0 (List.mem_map.mpr ⟨q, hq, hq1⟩)
      exact Bool.eq_false_iff.mpr hnc
    · simp only [remove, if_neg hk, contains_key, List.any_cons,
        Bool.or_eq_false_iff]
      constructor
      · exact decide_eq_false hk
      · simpa [contains_key] using ih hrest

theorem find_eq_none_of_absent (m : MapState K V) (k : K)
    (h : contains_key m k = false) : find m k = none := by
  have h2 : (find m k).isSome = false := by rw [find_isSome, h]
  cases hf : find m k with
  | none => rfl
  | some v => rw [hf] at h2; simp at h2

end MapM

theorem traverse_fst_front {A : Type} (l : List A) (f : A → Bool) :
    (traverse l f).1 <+: l := by
  induction l with
  | nil => simp [traverse]
  | cons a rest ih =>
    by_cases h : f a = true
    · obtain ⟨t, ht⟩ := ih
      exact ⟨t, by simp [traverse, h, ht]⟩
    · exact ⟨rest, by simp [traverse, h]⟩

theorem traverse_snd_true_iff {A : Type} (l : List A) (f : A → Bool) :
    (traverse l f).2 = true ↔ ∀ a ∈ l, f a = true := by
  induction l with
  | nil => simp [traverse]
  | cons a rest ih =>
    by_cases h : f a = true
    · simp [traverse, h, ih]
    · constructor
      · intro hh
        simp [traverse, h] at hh
      · intro hall
        exact absurd (hall a (List.mem_cons_self a rest)) h

theorem traverse_fst_of_all {A : Type} (l : List A) (f : A → Bool)
    (h : ∀ a ∈ l, f a = true) : (traverse l f).1 = l := by
  induction l with
  | nil => simp [traverse]
  | cons a rest ih =>
    have ha := h a (List.mem_cons_self a rest)
    simp [traverse, ha, ih (fun x hx => h x (List.mem_cons_of_mem a hx))]

theorem traverse_snd_false_spec {A : Type} (l : List A) (f : A → Bool)
    (h : (traverse l f).2 = false) :
    ∃ pre x, (traverse l f).1 = pre ++ [x] ∧ f x = false ∧
      ∀ b ∈ pre, f b = true := by
  induction l with
  | nil => simp [traverse] at h
  | cons a rest ih =>
    by_cases hf : f a = true
    · have h2 : (traverse rest f).2 = false := by
        simpa [traverse, hf] using h
      obtain ⟨pre, x, hfst, hx, hpre⟩ := ih h2
      refine ⟨a :: pre, x, ?_, hx, ?_⟩
      · simp [traverse, hf, hfst]
      · intro b hb
        rcases List.mem_cons.mp hb with hb | hb
        · exact hb ▸ hf
        · exact hpre b hb
    · refine ⟨[], a, ?_, Bool.eq_false_iff.mpr hf, by simp⟩
      simp [traverse, hf]

theorem traverse0_fst {A : Type} (l : List A) (f : A → Bool) :
    (traverse0 l f).1 = (traverse l f).1 := by
  induction l with
  | nil => simp [traverse, traverse0]
  | cons a rest ih =>
    by_cases h : f a = true
    · simp [traverse, traverse0, h, ih]
    · simp [traverse, traverse0, h]

theorem traverse_const_true {A : Type} (l : List A) :
    traverse l (fun _ => true) = (l, true) := by
  induction l with
  | nil => rfl
  | cons a rest ih => simp [traverse, ih]

theorem traverse_cons_const_false {A : Type} (a : A) (rest : List A) :
    traverse (a :: rest) (fun _ => false) = ([a], false) := by
  simp [traverse]

namespace MapM

theorem mutate_values0_eq (m : MapState K V) (f : K → V → Bool × V) :
    mutate_values0 m f = (mutate_values m f).1 := by
  induction m with
  | nil => rfl
  | cons p rest ih =>
    obtain ⟨k, v⟩ := p
    by_cases h : (f k v).1 = true
    · simp [mutate_values, mutate_values0, h, ih]
    · simp [mutate_values, mutate_values0, h]

end MapM

namespace SetM

theorem contains_iff_mem (s : SetState T) (x : T) :
    contains s x = true ↔ x ∈ s := by
  simp [contains, List.any_eq_true]

theorem contains_eq_false_iff (s : SetState T) (x : T) :
    contains s x = false ↔ x ∉ s := by
  rw [Bool.eq_false_iff, Ne, contains_iff_mem]

theorem mem_differenceElems (a b : SetState T) (x : T) :
    x ∈ differenceElems a b ↔ x ∈ a ∧ x ∉ b := by
  simp [differenceElems, List.mem_filter, Bool.not_eq_true',
    contains_eq_false_iff]

theorem mem_intersectionElems (a b : SetState T) (x : T) :
    x ∈ intersectionElems a b ↔ x ∈ a ∧ x ∈ b := by
  simp [intersectionElems, List.mem_filter, contains_iff_mem]

theorem mem_symmetric_differenceElems (a b : SetState T) (x : T) :
    x ∈ symmetric_differenceElems a b ↔
      (x ∈ a ∧ x ∉ b) ∨ (x ∈ b ∧ x ∉ a) := by
  simp [symmetric_differenceElems, List.mem_append, mem_differenceElems]

theorem mem_unionElems (a b : SetState T) (x : T) :
    x ∈ unionElems a b ↔ x ∈ a ∨ x ∈ b := by
  simp only [unionElems, List.mem_append, mem_differenceElems]
  tauto

end SetM

/-! ### Claim theorems -/

/-- C1 counterexample: on the one-pair map [(1, 2)] with the constantly
false visitor, every pair of the map is visited, yet `each` returns false;
this refutes "itself returns true if and only if every pair was
visited". -/
theorem C1_counterexample :
    ¬ (MapM.each [((1 : Nat), (2 : Nat))] (fun _ _ => false) = true ↔
        MapM.eachVisited [((1 : Nat), (2 : Nat))] (fun _ _ => false) =
          [((1 : Nat), (2 : Nat))]) := by
  decide

/-- C1 (amended): `each` calls the visitor once per visited pair; the
visited pairs form a prefix of the map's pairs, so iteration stops
immediately once the visitor returns false and no remaining pair is
visited; `each` returns true if and only if the visitor returned true on
every pair (i.e. the traversal was never short-circuited), and returning
true implies every pair was visited; a short-circuited run visited exactly
the pairs up to and including the vetoing one; the constantly false
visitor on a non-empty map visits exactly one pair (the first) and `each`
returns false; the constantly true visitor visits every pair exactly once
and `each` returns true. -/
theorem C1_each_spec (m : MapState Nat Nat) (f : Nat → Nat → Bool) :
    (MapM.eachVisited m f <+: m) ∧
      (MapM.each m f = true ↔ ∀ p ∈ m, f p.1 p.2 = true) ∧
      (MapM.each m f = true → MapM.eachVisited m f = m) ∧
      (MapM.each m f = false →
        ∃ pre p, MapM.eachVisited m f = pre ++ [p] ∧ f p.1 p.2 = false ∧
          ∀ q ∈ pre, f q.1 q.2 = true) ∧
      (m ≠ [] → MapM.each m (fun _ _ => false) = false ∧
        MapM.eachVisited m (fun _ _ => false) = m.take 1) ∧
      (MapM.each m (fun _ _ => true) = true ∧
        MapM.eachVisited m (fun _ _ => true) = m) := by
  refine ⟨traverse_fst_front m _, ?_, ?_, ?_, ?_, ?_⟩
  · exact traverse_snd_true_iff m (fun p => f p.1 p.2)
  · intro hc
    exact traverse_fst_of_all m _ ((traverse_snd_true_iff m _).mp hc)
  · intro hc
    exact traverse_snd_false_spec m (fun p => f p.1 p.2) hc
  · intro hm
    match m with
    | [] => exact absurd rfl hm
    | p :: rest =>
      constructor
      · show (traverse (p :: rest) _).2 = false
        rw [traverse_cons_const_false]
      · show (traverse (p :: rest) _).1 = (p :: rest).take 1
        rw [traverse_cons_const_false]
        simp
  · constructor
    · show (traverse m _).2 = true
      rw [traverse_const_true]
    · show (traverse m _).1 = m
      rw [traverse_const_true]

/-- C1 witness: the amended specification applied to the concrete two-pair
map [(1, 2), (3, 4)], discharging the non-emptiness hypothesis. -/
theorem C1_witness :
    ([((1 : Nat), (2 : Nat)), (3, 4)] ≠ ([] : MapState Nat Nat)) ∧
      MapM.each [((1 : Nat), (2 : Nat)), (3, 4)] (fun _ _ => false) =
        false ∧
      MapM.eachVisited [((1 : Nat), (2 : Nat)), (3, 4)] (fun _ _ => false) =
        ([((1 : Nat), (2 : Nat)), (3, 4)]).take 1 :=
  ⟨by decide,
   ((C1_each_spec [(1, 2), (3, 4)] (fun _ _ => false)).2.2.2.2.1
     (by decide)).1,
   ((C1_each_spec [(1, 2), (3, 4)] (fun _ _ => false)).2.2.2.2.1
     (by decide)).2⟩

/-- C3: `insert` returns true if and only if the key was not previously
present (false when it overwrites an existing entry), afterwards `find`
yields the newly inserted value, and the map's size grows by at most one
(and never shrinks). -/
theorem C3_insert_spec (m : MapState K V) (k : K) (v : V) :
    ((MapM.insert m k v).1 = true ↔ MapM.contains_key m k = false) ∧
      MapM.find (MapM.insert m k v).2 k = some v ∧
      MapM.len (MapM.insert m k v).2 ≤ MapM.len m + 1 ∧
      MapM.len m ≤ MapM.len (MapM.insert m k v).2 := by
  refine ⟨?_, MapM.find_insert m k v, (MapM.insert_len_bounds m k v).1,
    (MapM.insert_len_bounds m k v).2⟩
  rw [MapM.insert_fst]
  cases h : MapM.contains_key m k <;> simp

/-- C3 witness: inserting a fresh key returns true and a repeated insert
returns false and overwrites, evaluated on concrete maps. -/
theorem C3_witness :
    ((MapM.insert ([] : MapState Nat Nat) 1 10).1 = true ↔
        MapM.contains_key ([] : MapState Nat Nat) 1 = false) ∧
      MapM.find (MapM.insert [((1 : Nat), (10 : Nat))] 1 20).2 1 =
        some 20 :=
  ⟨(C3_insert_spec [] 1 10).1, (C3_insert_spec [(1, 10)] 1 20).2.1⟩

/-- C6: `swap` leaves the map in exactly the state `insert` produces and
returns the previous value for the key instead of a boolean: `Some` of the
stored value when the key was present (in particular `Some v1` right after
`insert k v1`), and the empty result when the key was absent. -/
theorem C6_swap_spec (m : MapState K V) (k : K) (v1 v2 : V) :
    (MapM.swap m k v2).2 = (MapM.insert m k v2).2 ∧
      (MapM.swap m k v2).1 = MapM.find m k ∧
      (MapM.swap (MapM.insert m k v1).2 k v2).1 = some v1 ∧
      (MapM.contains_key m k = false → (MapM.swap m k v2).1 = none) := by
  refine ⟨by rw [MapM.swap_eq], by rw [MapM.swap_eq], ?_, ?_⟩
  · rw [MapM.swap_eq]
    exact MapM.find_insert m k v1
  · intro h
    rw [MapM.swap_eq]
    exact MapM.find_eq_none_of_absent m k h

/-- C6 witness: swap after insert returns the prior value, and swap on an
absent key returns none, on concrete maps. -/
theorem C6_witness :
    (MapM.swap (MapM.insert ([] : MapState Nat Nat) 1 10).2 1 20).1 =
        some 10 ∧
      (MapM.swap ([] : MapState Nat Nat) 1 20).1 = none :=
  ⟨(C6_swap_spec [] 1 10 20).2.2.1,
   (C6_swap_spec [] 1 10 20).2.2.2 (by decide)⟩

/-- C7: `remove` returns true exactly when the key was present (so an
immediately repeated remove of the same key returns false, for a map with
duplicate-free keys), `pop` returns `Some` of the stored value exactly
when the key was present and afterwards `contains_key` is false, and on an
absent key both operations leave the map unchanged and signal absence
structurally. -/
theorem C7_remove_pop_spec (m : MapState K V) (k : K) :
    ((MapM.remove m k).1 = true ↔ MapM.contains_key m k = true) ∧
      (MapM.pop m k).1 = MapM.find m k ∧
      ((MapM.pop m k).1.isSome = MapM.contains_key m k) ∧
      (MapM.contains_key m k = false →
        (MapM.remove m k).2 = m ∧ (MapM.pop m k).2 = m) ∧
      ((m.map Prod.fst).Nodup →
        (MapM.remove (MapM.remove m k).2 k).1 = false ∧
          MapM.contains_key (MapM.pop m k).2 k = false) := by
  refine ⟨by rw [MapM.remove_fst], by rw [MapM.pop_eq], ?_, ?_, ?_⟩
  · rw [MapM.pop_eq]
    exact MapM.find_isSome m k
  · intro h
    refine ⟨MapM.remove_snd_of_absent m k h, ?_⟩
    rw [MapM.pop_eq]
    exact MapM.remove_snd_of_absent m k h
  · intro h
    have hc := MapM.contains_key_remove_of_nodup m k h
    refine ⟨by rw [MapM.remove_fst]; exact hc, ?_⟩
    rw [MapM.pop_eq]
    exact hc

/-- C7 witness: double remove returns false and pop deletes the key, on a
concrete one-pair map with duplicate-free keys. -/
theorem C7_witness :
    ((MapM.remove [((1 : Nat), (2 : Nat))] 1).1 = true ↔
        MapM.contains_key [((1 : Nat), (2 : Nat))] 1 = true) ∧
      (MapM.remove (MapM.remove [((1 : Nat), (2 : Nat))] 1).2 1).1 =
        false ∧
      MapM.contains_key (MapM.pop [((1 : Nat), (2 : Nat))] 1).2 1 =
        false :=
  ⟨(C7_remove_pop_spec [(1, 2)] 1).1,
   ((C7_remove_pop_spec [(1, 2)] 1).2.2.2.2 (by decide)).1,
   ((C7_remove_pop_spec [(1, 2)] 1).2.2.2.2 (by decide)).2⟩

/-- C8: for every map state and key, `contains_key(k)` agrees with
`find(k)` being present, and an absent key yields the empty result from
`find` (never an error: `find` is total by construction). -/
theorem C8_contains_key_iff_find_present (m : MapState Nat Nat) (k : Nat) :
    (MapM.contains_key m k = (MapM.find m k).isSome) ∧
      (MapM.contains_key m k = false → MapM.find m k = none) := by
  constructor
  · exact (MapM.find_isSome m k).symm
  · intro h
    have h2 : (MapM.find m k).isSome = false := by rw [MapM.find_isSome, h]
    cases hf : MapM.find m k with
    | none => rfl
    | some v => rw [hf] at h2; simp at h2

/-- C8 witness: the equivalence evaluated on a concrete map state. -/
theorem C8_witness :
    (MapM.contains_key [((1 : Nat), (2 : Nat))] 1 =
        (MapM.find [((1 : Nat), (2 : Nat))] 1).isSome) ∧
      (MapM.contains_key [((1 : Nat), (2 : Nat))] 3 = false →
        MapM.find [((1 : Nat), (2 : Nat))] 3 = none) :=
  ⟨(C8_contains_key_iff_find_present [(1, 2)] 1).1,
   (C8_contains_key_iff_find_present [(1, 2)] 3).2⟩

/-- C9: for every reachable state of either implementer of the Container
capability (the reference map and the reference set), `is_empty` returns
true exactly when `len` returns 0; since this holds for all states, every
operation of the contract maintains it. -/
theorem C9_is_empty_iff_len_zero (m : MapState Nat Nat)
    (s : SetState Nat) :
    (MapM.is_empty m = true ↔ MapM.len m = 0) ∧
      (SetM.is_empty s = true ↔ SetM.len s = 0) := by
  constructor
  · simp [MapM.is_empty, MapM.len, List.isEmpty_iff_length_eq_zero]
  · simp [SetM.is_empty, SetM.len, List.isEmpty_iff_length_eq_zero]

/-- C9 witness: the equivalence evaluated on concrete states. -/
theorem C9_witness :
    (MapM.is_empty [((5 : Nat), (6 : Nat))] = true ↔
        MapM.len [((5 : Nat), (6 : Nat))] = 0) ∧
      (SetM.is_empty ([] : SetState Nat) = true ↔
        SetM.len ([] : SetState Nat) = 0) :=
  C9_is_empty_iff_len_zero [(5, 6)] []

/-- C10: from every starting state, `clear` leaves the container with
`len() == 0` and `is_empty()` true; it is a total function with no error
path. -/
theorem C10_clear_empties (m : MapState Nat Nat) (s : SetState Nat) :
    MapM.len (MapM.clear m) = 0 ∧ MapM.is_empty (MapM.clear m) = true ∧
      SetM.len (SetM.clear s) = 0 ∧ SetM.is_empty (SetM.clear s) = true := by
  simp [MapM.clear, MapM.len, MapM.is_empty, SetM.clear, SetM.len,
    SetM.is_empty]

/-- C4: every visitation operation that the source declares in a
unit-returning stage0 variant and a boolean-returning non-stage0 variant
performs the same traversal in both variants: the visited elements agree
(same elements, same order, identical short-circuiting), and for
`mutate_values` the resulting map state also agrees, so discarding the
completion boolean recovers the stage0 behavior exactly. -/
theorem C4_stage0_equivalence (m : MapState K V) (f : K → V → Bool)
    (g : K → Bool) (h : V → Bool) (mf : K → V → Bool × V)
    (a b : SetState T) (vf : T → Bool) :
    MapM.each0Visited m f = MapM.eachVisited m f ∧
      MapM.each_key0Visited m g = MapM.each_keyVisited m g ∧
      MapM.each_value0Visited m h = MapM.each_valueVisited m h ∧
      MapM.mutate_values0 m mf = (MapM.mutate_values m mf).1 ∧
      SetM.difference0Visited a b vf = SetM.differenceVisited a b vf ∧
      SetM.symmetric_difference0Visited a b vf =
        SetM.symmetric_differenceVisited a b vf ∧
      SetM.intersection0Visited a b vf = SetM.intersectionVisited a b vf ∧
      SetM.union0Visited a b vf = SetM.unionVisited a b vf :=
  ⟨traverse0_fst m (fun p => f p.1 p.2),
   traverse0_fst (m.map Prod.fst) g,
   traverse0_fst (m.map Prod.snd) h,
   MapM.mutate_values0_eq m mf,
   traverse0_fst (SetM.differenceElems a b) vf,
   traverse0_fst (SetM.symmetric_differenceElems a b) vf,
   traverse0_fst (SetM.intersectionElems a b) vf,
   traverse0_fst (SetM.unionElems a b) vf⟩

/-- C4 witness: the two variants of each agree on a concrete map and
visitor. -/
theorem C4_witness :
    MapM.each0Visited [((1 : Nat), (2 : Nat)), (3, 4)]
        (fun k _ => decide (k = 1)) =
      MapM.eachVisited [((1 : Nat), (2 : Nat)), (3, 4)]
        (fun k _ => decide (k = 1)) :=
  (C4_stage0_equivalence [((1 : Nat), (2 : Nat)), (3, 4)]
    (fun k _ => decide (k = 1)) (fun _ => true) (fun _ => true)
    (fun _ v => (true, v)) [(1 : Nat)] [(2 : Nat)] (fun _ => true)).1

/-- C5: `is_subset` holds exactly when every element of the first set is
in the second, `is_disjoint` holds exactly when the intersection is empty,
subset is reflexive, and two sets each a subset of the other contain the
same elements. -/
theorem C5_subset_disjoint_spec (a b : SetState T) :
    (SetM.is_subset a b = true ↔ ∀ x ∈ a, x ∈ b) ∧
      (SetM.is_disjoint a b = true ↔ SetM.intersectionElems a b = []) ∧
      SetM.is_subset a a = true ∧
      (SetM.is_subset a b = true → SetM.is_subset b a = true →
        ∀ x, x ∈ a ↔ x ∈ b) := by
  have hsub : ∀ (u w : SetState T),
      SetM.is_subset u w = true ↔ ∀ x ∈ u, x ∈ w := by
    intro u w
    simp [SetM.is_subset, List.all_eq_true, SetM.contains_iff_mem]
  refine ⟨hsub a b, ?_, (hsub a a).mpr (fun x hx => hx), ?_⟩
  · simp [SetM.is_disjoint, List.all_eq_true, SetM.intersectionElems,
      List.filter_eq_nil_iff, SetM.contains_iff_mem, Bool.not_eq_true',
      SetM.contains_eq_false_iff]
  · intro h1 h2 x
    exact ⟨fun hx => (hsub a b).mp h1 x hx, fun hx => (hsub b a).mp h2 x hx⟩

/-- C5 witness: reflexivity and mutual-subset extensionality evaluated on
concrete sets. -/
theorem C5_witness :
    SetM.is_subset [(1 : Nat), 2] [(1 : Nat), 2] = true ∧
      (∀ x, x ∈ [(1 : Nat), 2] ↔ x ∈ [(2 : Nat), 1]) :=
  ⟨(C5_subset_disjoint_spec [(1 : Nat), 2] [(1 : Nat), 2]).2.2.1,
   (C5_subset_disjoint_spec [(1 : Nat), 2] [(2 : Nat), 1]).2.2.2
     (by decide) (by decide)⟩

/-- C2: for duplicate-free sets, each of the four binary algebra visitors
visits exactly the elements satisfying the named set relation, each
element once (the visited sequence is duplicate-free), in the fixed
deterministic order of the underlying element sequence; an arbitrary
visitor sees a prefix of that sequence (early stop) and a completed
traversal visited all of it; on A = [1, 2, 3] and B = [2, 3, 4] the
intersection visits [2, 3], the difference visits [1] and the union visits
[1, 2, 3, 4]. -/
theorem C2_set_algebra_spec (a b : SetState T) (ha : a.Nodup)
    (hb : b.Nodup) :
    ((∀ x, x ∈ SetM.differenceElems a b ↔ x ∈ a ∧ x ∉ b) ∧
        (SetM.differenceElems a b).Nodup ∧
        SetM.differenceVisited a b (fun _ => true) =
          SetM.differenceElems a b ∧
        (∀ f, SetM.differenceVisited a b f <+: SetM.differenceElems a b ∧
          (SetM.difference a b f = true →
            SetM.differenceVisited a b f = SetM.differenceElems a b))) ∧
      ((∀ x, x ∈ SetM.symmetric_differenceElems a b ↔
            (x ∈ a ∧ x ∉ b) ∨ (x ∈ b ∧ x ∉ a)) ∧
        (SetM.symmetric_differenceElems a b).Nodup ∧
        SetM.symmetric_differenceVisited a b (fun _ => true) =
          SetM.symmetric_differenceElems a b ∧
        (∀ f, SetM.symmetric_differenceVisited a b f <+:
            SetM.symmetric_differenceElems a b ∧
          (SetM.symmetric_difference a b f = true →
            SetM.symmetric_differenceVisited a b f =
              SetM.symmetric_differenceElems a b))) ∧
      ((∀ x, x ∈ SetM.intersectionElems a b ↔ x ∈ a ∧ x ∈ b) ∧
        (SetM.intersectionElems a b).Nodup ∧
        SetM.intersectionVisited a b (fun _ => true) =
          SetM.intersectionElems a b ∧
        (∀ f, SetM.intersectionVisited a b f <+:
            SetM.intersectionElems a b ∧
          (SetM.intersection a b f = true →
            SetM.intersectionVisited a b f =
              SetM.intersectionElems a b))) ∧
      ((∀ x, x ∈ SetM.unionElems a b ↔ x ∈ a ∨ x ∈ b) ∧
        (SetM.unionElems a b).Nodup ∧
        SetM.unionVisited a b (fun _ => true) = SetM.unionElems a b ∧
        (∀ f, SetM.unionVisited a b f <+: SetM.unionElems a b ∧
          (SetM.union a b f = true →
            SetM.unionVisited a b f = SetM.unionElems a b))) ∧
      (SetM.intersectionElems [(1 : Nat), 2, 3] [2, 3, 4] = [2, 3] ∧
        SetM.differenceElems [(1 : Nat), 2, 3] [2, 3, 4] = [1] ∧
        SetM.unionElems [(1 : Nat), 2, 3] [2, 3, 4] = [1, 2, 3, 4]) := by
  have hvis : ∀ (l : List T) (f : T → Bool),
      (traverse l f).1 <+: l ∧
        ((traverse l f).2 = true → (traverse l f).1 = l) := by
    intro l f
    exact ⟨traverse_fst_front l f,
      fun hc => traverse_fst_of_all l f ((traverse_snd_true_iff l f).mp hc)⟩
  have hfull : ∀ (l : List T), (traverse l (fun _ => true)).1 = l := by
    intro l
    rw [traverse_const_true]
  refine ⟨⟨SetM.mem_differenceElems a b, ha.filter _,
      hfull (SetM.differenceElems a b),
      fun f => hvis (SetM.differenceElems a b) f⟩,
    ⟨SetM.mem_symmetric_differenceElems a b, ?_,
      hfull (SetM.symmetric_differenceElems a b),
      fun f => hvis (SetM.symmetric_differenceElems a b) f⟩,
    ⟨SetM.mem_intersectionElems a b, ha.filter _,
      hfull (SetM.intersectionElems a b),
      fun f => hvis (SetM.intersectionElems a b) f⟩,
    ⟨SetM.mem_unionElems a b, ?_, hfull (SetM.unionElems a b),
      fun f => hvis (SetM.unionElems a b) f⟩,
    by decide, by decide, by decide⟩
  · refine (ha.filter _).append (hb.filter _) ?_
    intro x hx1 hx2
    have hx1m : x ∈ SetM.differenceElems a b := hx1
    have hx2m : x ∈ SetM.differenceElems b a := hx2
    rw [SetM.mem_differenceElems] at hx1m hx2m
    exact hx2m.2 hx1m.1
  · refine ha.append (hb.filter _) ?_
    intro x hx1 hx2
    have hx2m : x ∈ SetM.differenceElems b a := hx2
    rw [SetM.mem_differenceElems] at hx2m
    exact hx2m.2 hx1

/-- C2 witness: the algebra visitors on the concrete sets A = [1, 2, 3]
and B = [2, 3, 4] with duplicate-free elements. -/
theorem C2_witness :
    (∀ x, x ∈ SetM.differenceElems [(1 : Nat), 2, 3] [2, 3, 4] ↔
        x ∈ [(1 : Nat), 2, 3] ∧ x ∉ [(2 : Nat), 3, 4]) ∧
      SetM.unionVisited [(1 : Nat), 2, 3] [2, 3, 4] (fun _ => true) =
        SetM.unionElems [(1 : Nat), 2, 3] [2, 3, 4] :=
  ⟨(C2_set_algebra_spec [(1 : Nat), 2, 3] [2, 3, 4] (by decide)
      (by decide)).1.1,
   (C2_set_algebra_spec [(1 : Nat), 2, 3] [2, 3, 4] (by decide)
      (by decide)).2.2.2.1.2.2.1⟩

/-- C10 witness: clearing a concrete non-empty map and set. -/
theorem C10_witness :
    MapM.len (MapM.clear [((1 : Nat), (2 : Nat))]) = 0 ∧
      MapM.is_empty (MapM.clear [((1 : Nat), (2 : Nat))]) = true ∧
      SetM.len (SetM.clear [(3 : Nat)]) = 0 ∧
      SetM.is_empty (SetM.clear [(3 : Nat)]) = true :=
  C10_clear_empties [(1, 2)] [3]

end ContainerSpec
